import Mathlib

/-!
Verification development for the SolarTrack radiometric computation engine.

The definitions below are a shallow embedding, over the real numbers, of the
JavaScript core: the 2D Simpson quadrature primitive, the parallel-disk and
orientation-aware view-factor models, the exact Eq.-A.4 model, geometry
extraction, least-squares calibration (kappa), and the goodness-of-fit
metrics.  JavaScript doubles are idealised as real numbers; thrown
exceptions are modelled with `Except String`; the mutable module-level
`settings` object of the exact simulator is passed explicitly.
-/

set_option maxHeartbeats 1000000

noncomputable section

namespace SolarTrack

/-- A 3D vector, standing for the JavaScript `[x, y, z]` arrays. -/
structure Vec3 where
  x : ℝ
  y : ℝ
  z : ℝ

/-- Dot product of two 3D vectors (`dot` in `simulator_exact.js`). -/
def dot (a b : Vec3) : ℝ := a.x * b.x + a.y * b.y + a.z * b.z

/-- Euclidean norm of a 3D vector (`norm` in `simulator_exact.js`). -/
def norm3 (v : Vec3) : ℝ := Real.sqrt (v.x * v.x + v.y * v.y + v.z * v.z)

/-- `normalize` from `simulator_exact.js`: zero vector below threshold 1e-12. -/
def normalize (v : Vec3) : Vec3 :=
  let n := norm3 v
  if n < 1e-12 then ⟨0, 0, 0⟩ else ⟨v.x / n, v.y / n, v.z / n⟩

/-- The string tag selecting the oriented model in the JS dispatch. -/
def orientedTag : String := "oriented"

/-- The string tag selecting the parallel model in the JS dispatch. -/
def parallelTag : String := "parallel"

/-- Indexed map corresponding to the `for (let i = 0; ...)` loops that push
one output value per input sample. -/
def mapWithIndex {α β : Type} (f : ℕ → α → β) : ℕ → List α → List β
  | _, [] => []
  | i, a :: as => f i a :: mapWithIndex f (i + 1) as

namespace Simulator

/-- `CONSTANTS.SOURCE_CENTER` from `simulator.js`. -/
def SOURCE_CENTER : Vec3 := ⟨-159.81, 868.82, 168.23⟩

/-- `CONSTANTS.SOURCE_DIAMETER` from `simulator.js`. -/
def SOURCE_DIAMETER : ℝ := 200.0

/-- `diskIntegrand(phi, rPrime, a, L)` from `simulator.js`: the integrand of
the flat-disk view factor, returning 0 on a vanishing denominator. -/
def diskIntegrand (phi rPrime a L : ℝ) : ℝ :=
  let denominator := (rPrime * rPrime - 2 * a * rPrime * Real.cos phi + a * a + L * L) ^ 2
  if denominator = 0 then 0 else rPrime / denominator

/-- Simpson weight pattern 1,4,2,4,...,4,1 used by both quadrature routines. -/
def simpsonWeight (i n : ℕ) : ℝ :=
  if i = 0 ∨ i = n then 1 else if i % 2 = 0 then 2 else 4

/-- `simpson2D` from `simulator.js`: composite 2D Simpson rule over
`[r_min, r_max] × [phi_min, phi_max]` with `n_r × n_phi` intervals. -/
def simpson2D (func : ℝ → ℝ → ℝ → ℝ → ℝ) (rMin rMax phiMin phiMax a L : ℝ)
    (nR nPhi : ℕ) : ℝ :=
  let hR := (rMax - rMin) / nR
  let hPhi := (phiMax - phiMin) / nPhi
  (hR * hPhi / 9) *
    Finset.sum (Finset.range (nR + 1)) (fun i =>
      Finset.sum (Finset.range (nPhi + 1)) (fun j =>
        simpsonWeight i nR * simpsonWeight j nPhi *
          func (phiMin + j * hPhi) (rMin + i * hR) a L))

/-- `calculateDiskViewFactor(a, L, D)` from `simulator.js`: parallel-disk
view factor, 0 for `L ≤ 0`, otherwise `(L²/π)` times the Simpson integral
of `diskIntegrand` over `r ∈ [0, D/2]`, `phi ∈ [0, 2π]` at 50×50 intervals.
Note: the JS code does not clamp the result. -/
def calculateDiskViewFactor (a L D : ℝ) : ℝ :=
  if L ≤ 0 then 0
  else (L * L / Real.pi) * simpson2D diskIntegrand 0 (D / 2) 0 (2 * Real.pi) a L 50 50

/-- `calculateGeometry(handPos, sourceCenter)` from `simulator.js`:
returns the pair `(a, H)`. -/
def calculateGeometry (handPos sourceCenter : Vec3) : ℝ × ℝ :=
  (Real.sqrt ((sourceCenter.x - handPos.x) ^ 2 + (sourceCenter.z - handPos.z) ^ 2),
   sourceCenter.y - handPos.y)

/-- One iteration of the `simulateSolarPower` loop in `simulator.js`: the
per-sample simulated power (the view factor, multiplied by the orientation
factor only when the model is oriented, normals are supplied, `i` is in
range and both vector norms are positive). -/
def samplePower (model : String) (normals : Option (List Vec3))
    (sourceCenter : Vec3) (sourceDiameter : ℝ) (i : ℕ) (handPos : Vec3) : ℝ :=
  let g := calculateGeometry handPos sourceCenter
  let viewFactor := calculateDiskViewFactor g.1 g.2 sourceDiameter
  match normals with
  | none => viewFactor
  | some ns =>
    if model = orientedTag ∧ i < ns.length then
      let nrm := ns.getD i ⟨0, 0, 0⟩
      let cellNormal : Vec3 := ⟨-nrm.x, -nrm.y, -nrm.z⟩
      let vecHandToLamp : Vec3 :=
        ⟨sourceCenter.x - handPos.x, sourceCenter.y - handPos.y, sourceCenter.z - handPos.z⟩
      let d := dot cellNormal vecHandToLamp
      let normCellNormal := norm3 cellNormal
      let normVecHandToLamp := norm3 vecHandToLamp
      if 0 < normCellNormal ∧ 0 < normVecHandToLamp then
        viewFactor * max 0 (d / (normCellNormal * normVecHandToLamp))
      else viewFactor
    else viewFactor

/-- Result record of `simulateSolarPower`. -/
structure SimResult where
  power : List ℝ
  a_values : List ℝ
  H_values : List ℝ

/-- `simulateSolarPower(positions, normals, model, sourceCenter, sourceDiameter)`
from `simulator.js`: per-sample geometry and simulated power. -/
def simulateSolarPower (positions : List Vec3) (normals : Option (List Vec3))
    (model : String) (sourceCenter : Vec3) (sourceDiameter : ℝ) : SimResult :=
  { power := mapWithIndex (samplePower model normals sourceCenter sourceDiameter) 0 positions
    a_values := positions.map (fun p => (calculateGeometry p sourceCenter).1)
    H_values := positions.map (fun p => (calculateGeometry p sourceCenter).2) }

/-- `calculateKappa(viewFactors, realPower)` from `simulator.js`: throws on
mismatched lengths, throws on a zero denominator `Σ F_i²`, otherwise returns
the least-squares `κ = (F·P)/(F·F)`.  (The JS null checks cannot fire on
Lean lists.) -/
def calculateKappa (viewFactors realPower : List ℝ) : Except String ℝ :=
  if viewFactors.length ≠ realPower.length then
    Except.error ("Invalid input for kappa calculation")
  else
    let numerator := (List.zipWith (fun f p => f * p) viewFactors realPower).sum
    let denominator := (viewFactors.map (fun f => f * f)).sum
    if denominator = 0 then Except.error ("Cannot calculate kappa: zero denominator")
    else Except.ok (numerator / denominator)

/-- `applyKappaScaling(viewFactors, kappa)` from `simulator.js`. -/
def applyKappaScaling (viewFactors : List ℝ) (kappa : ℝ) : List ℝ :=
  viewFactors.map (fun f => kappa * f)

/-- `Math.min(...arr)` over a non-empty array (0 for the empty list, which
the JS spread form never receives in the modelled call sites). -/
def jsMin : List ℝ → ℝ
  | [] => 0
  | h :: t => t.foldl min h

/-- `Math.max(...arr)` over a non-empty array. -/
def jsMax : List ℝ → ℝ
  | [] => 0
  | h :: t => t.foldl max h

/-- `applyPerSegmentScaling(simPower, realPower)` from `simulator.js`:
normalizes the simulated series to [0,1] by its own min/max and maps it
affinely into the measured series' range; a constant simulated series is
replaced by an array filled with the measured minimum. -/
def applyPerSegmentScaling (simPower realPower : List ℝ) : List ℝ :=
  let simMin := jsMin simPower
  let simMax := jsMax simPower
  let realMin := jsMin realPower
  let realMax := jsMax realPower
  if simMin < simMax then
    (simPower.map (fun p => (p - simMin) / (simMax - simMin))).map
      (fun p => realMin + p * (realMax - realMin))
  else
    List.replicate simPower.length realMin

/-- `calculateRMSE(arr1, arr2)` from `simulator.js`: throws on mismatched
lengths, otherwise `sqrt(Σ(arr1_i − arr2_i)² / n)`. -/
def calculateRMSE (arr1 arr2 : List ℝ) : Except String ℝ :=
  if arr1.length ≠ arr2.length then
    Except.error ("Arrays must have same length")
  else
    Except.ok (Real.sqrt
      ((List.zipWith (fun x y => (x - y) ^ 2) arr1 arr2).sum / arr1.length))

/-- `calculateR2(actual, predicted)` from `simulator.js`. -/
def calculateR2 (actual predicted : List ℝ) : Except String ℝ :=
  if actual.length ≠ predicted.length then
    Except.error ("Arrays must have same length")
  else
    let mean := actual.sum / actual.length
    let totalSS := (actual.map (fun v => (v - mean) ^ 2)).sum
    let residualSS := (List.zipWith (fun v p => (v - p) ^ 2) actual predicted).sum
    Except.ok (1 - residualSS / totalSS)

/-- `calculateCorrelation(arr1, arr2)` from `simulator.js`: Pearson
correlation, 0 when the denominator vanishes. -/
def calculateCorrelation (arr1 arr2 : List ℝ) : Except String ℝ :=
  if arr1.length ≠ arr2.length then
    Except.error ("Arrays must have same length")
  else
    let n := (arr1.length : ℝ)
    let mean1 := arr1.sum / n
    let mean2 := arr2.sum / n
    let numerator := (List.zipWith (fun x y => (x - mean1) * (y - mean2)) arr1 arr2).sum
    let sum1Sq := (arr1.map (fun x => (x - mean1) * (x - mean1))).sum
    let sum2Sq := (arr2.map (fun y => (y - mean2) * (y - mean2))).sum
    let denominator := Real.sqrt (sum1Sq * sum2Sq)
    if denominator = 0 then Except.ok 0 else Except.ok (numerator / denominator)

end Simulator

namespace Exact

/-- `LAMP_NORMAL` from `simulator_exact.js`: the lamp emits downward. -/
def LAMP_NORMAL : Vec3 := ⟨0, -1, 0⟩

/-- The module-level mutable `settings` object of `simulator_exact.js`,
made an explicit value that is threaded through the calls. -/
structure Settings where
  integrationResolutionR : ℕ
  integrationResolutionPhi : ℕ
  lightDiameterOverride : Option ℝ

/-- The default settings (`DEFAULT_INTEGRATION_R/PHI = 20`, no override). -/
def defaultSettings : Settings := ⟨20, 20, none⟩

/-- `integrate2D(f, rMax, nR, nPhi)` from `simulator_exact.js`: composite 2D
Simpson rule over `r ∈ [0, rMax]`, `phi ∈ [0, 2π]`; odd interval counts are
incremented to the next even number. -/
def integrate2D (f : ℝ → ℝ → ℝ) (rMax : ℝ) (nR0 nPhi0 : ℕ) : ℝ :=
  let nR := if nR0 % 2 ≠ 0 then nR0 + 1 else nR0
  let nPhi := if nPhi0 % 2 ≠ 0 then nPhi0 + 1 else nPhi0
  let dr := rMax / nR
  let dPhi := (2 * Real.pi) / nPhi
  (Finset.sum (Finset.range (nR + 1)) (fun i =>
    Finset.sum (Finset.range (nPhi + 1)) (fun j =>
      Simulator.simpsonWeight i nR * Simulator.simpsonWeight j nPhi *
        f (i * dr) (j * dPhi)))) * (dr / 3) * (dPhi / 3)

/-- `diskIntegrandA4(r, phi, handPos, cellNormal, sourceCenter, lampNormal)`
from `simulator_exact.js`: the Eq. A.4 kernel with singularity skip and
visibility / back-facing culling. -/
def diskIntegrandA4 (r phi : ℝ) (handPos cellNormal sourceCenter lampNormal : Vec3) : ℝ :=
  if r < 1e-6 then 0
  else
    let xPatch := sourceCenter.x + r * Real.cos phi
    let yPatch := sourceCenter.y
    let zPatch := sourceCenter.z + r * Real.sin phi
    let R : Vec3 := ⟨handPos.x - xPatch, handPos.y - yPatch, handPos.z - zPatch⟩
    let R2 := dot R R
    if R2 < 1e-12 then 0
    else
      let re := dot R lampNormal
      let rc := dot R cellNormal
      if re ≤ 0 ∨ 0 ≤ rc then 0
      else (re * (-rc)) / (R2 * R2) * r

/-- `calculateDiskViewFactorA4(handPos, cellNormal, sourceCenter, sourceDiameter)`
from `simulator_exact.js`: defensively normalizes the cell normal (0 when
degenerate), returns 0 when the hand is at or above the lamp plane, and
otherwise integrates the A.4 kernel over the disk, scaled by `1/π`.
Note: the JS code does not clamp the result. -/
def calculateDiskViewFactorA4 (s : Settings) (handPos cellNormal sourceCenter : Vec3)
    (sourceDiameter : ℝ) : ℝ :=
  let normalizedCellNormal := normalize cellNormal
  if norm3 normalizedCellNormal < 1e-6 then 0
  else if sourceCenter.y ≤ handPos.y then 0
  else
    let diskRadius := sourceDiameter / 2
    (1 / Real.pi) *
      integrate2D
        (fun r phi => diskIntegrandA4 r phi handPos normalizedCellNormal sourceCenter LAMP_NORMAL)
        diskRadius s.integrationResolutionR s.integrationResolutionPhi

/-- `diskIntegrandParallel(r, phi, a, L)` from `simulator_exact.js`. -/
def diskIntegrandParallel (r phi a L : ℝ) : ℝ :=
  let denom := (r * r - 2 * a * r * Real.cos phi + a * a + L * L) ^ 2
  if denom < 1e-12 then 0 else r / denom

/-- `calculateDiskViewFactorParallel(a, L, D)` from `simulator_exact.js`. -/
def calculateDiskViewFactorParallel (s : Settings) (a L D : ℝ) : ℝ :=
  if L ≤ 0 then 0
  else
    (L * L / Real.pi) *
      integrate2D (fun r phi => diskIntegrandParallel r phi a L) (D / 2)
        s.integrationResolutionR s.integrationResolutionPhi

/-- One iteration of the `simulateSolarPowerExact` loop: the per-sample
`(viewFactor, theta)` pair. -/
def exactSample (s : Settings) (normals : Option (List Vec3)) (sourceCenter : Vec3)
    (effectiveDiameter : ℝ) (model : String) (i : ℕ) (handPos : Vec3) : ℝ × ℝ :=
  let a := (Simulator.calculateGeometry handPos sourceCenter).1
  let H := (Simulator.calculateGeometry handPos sourceCenter).2
  match normals with
  | some ns =>
    if model = orientedTag ∧ i < ns.length then
      let nrm := ns.getD i ⟨0, 0, 0⟩
      let cellNormal : Vec3 := ⟨-nrm.x, -nrm.y, -nrm.z⟩
      let viewFactor := calculateDiskViewFactorA4 s handPos cellNormal sourceCenter effectiveDiameter
      let vecToLamp : Vec3 :=
        ⟨sourceCenter.x - handPos.x, sourceCenter.y - handPos.y, sourceCenter.z - handPos.z⟩
      let dotProduct := dot cellNormal vecToLamp
      let normCell := norm3 cellNormal
      let normVec := norm3 vecToLamp
      let theta :=
        if 0 < normCell ∧ 0 < normVec then
          Real.arccos (max (-1) (min 1 (dotProduct / (normCell * normVec)))) * (180 / Real.pi)
        else 0
      (viewFactor, theta)
    else (calculateDiskViewFactorParallel s a H effectiveDiameter, 0)
  | none => (calculateDiskViewFactorParallel s a H effectiveDiameter, 0)

/-- Result record of `simulateSolarPowerExact`. -/
structure ExactResult where
  power : List ℝ
  a_values : List ℝ
  H_values : List ℝ
  theta_values : List ℝ

/-- `simulateSolarPowerExact(positions, normals, sourceCenter, sourceDiameter, model)`
from `simulator_exact.js`, with the mutable `settings` passed explicitly. -/
def simulateSolarPowerExact (s : Settings) (positions : List Vec3)
    (normals : Option (List Vec3)) (sourceCenter : Vec3) (sourceDiameter : ℝ)
    (model : String) : ExactResult :=
  let effectiveDiameter :=
    match s.lightDiameterOverride with
    | some d => d
    | none => sourceDiameter
  { power := mapWithIndex
      (fun i p => (exactSample s normals sourceCenter effectiveDiameter model i p).1) 0 positions
    a_values := positions.map (fun p => (Simulator.calculateGeometry p sourceCenter).1)
    H_values := positions.map (fun p => (Simulator.calculateGeometry p sourceCenter).2)
    theta_values := mapWithIndex
      (fun i p => (exactSample s normals sourceCenter effectiveDiameter model i p).2) 0 positions }

end Exact

namespace Validate

/-- `calculateDiskViewFactor(a, L, D)` from `tests/validate.js`: identical to
the simulator version except that the result is clamped into `[0, 1]`.
(The validator duplicates `diskIntegrand` and `simpson2D` verbatim, so the
simulator embeddings are reused here.) -/
def calculateDiskViewFactor (a L D : ℝ) : ℝ :=
  if L ≤ 0 then 0
  else
    let integral := Simulator.simpson2D Simulator.diskIntegrand 0 (D / 2) 0 (2 * Real.pi) a L 50 50
    let F := L * L * integral / Real.pi
    max 0 (min 1 F)

/-- `calculateOrientationAwareApprox(a, L, D, palmNormal, cellPos, lightPos)`
from `tests/validate.js`: parallel view factor times `max(0, cos θ)`, with a
1e-6 degeneracy threshold on the two vector norms. -/
def calculateOrientationAwareApprox (a L D : ℝ) (palmNormal cellPos lightPos : Vec3) : ℝ :=
  let fParallel := calculateDiskViewFactor a L D
  let cellNormal : Vec3 := ⟨-palmNormal.x, -palmNormal.y, -palmNormal.z⟩
  let vecToLamp : Vec3 :=
    ⟨lightPos.x - cellPos.x, lightPos.y - cellPos.y, lightPos.z - cellPos.z⟩
  let dotProduct := dot cellNormal vecToLamp
  let normCell := norm3 cellNormal
  let normVec := norm3 vecToLamp
  if normCell < 1e-6 ∨ normVec < 1e-6 then 0
  else fParallel * max 0 (dotProduct / (normCell * normVec))

/-- `calculateKappa(viewFactors, realPower)` from `tests/validate.js`: unlike
the simulator version it performs no input validation and silently returns
the default `1.0` when the denominator `Σ F_i²` is zero. -/
def calculateKappa (viewFactors realPower : List ℝ) : ℝ :=
  let numerator := (List.zipWith (fun f p => f * p) viewFactors realPower).sum
  let denominator := (viewFactors.map (fun f => f * f)).sum
  if denominator = 0 then 1 else numerator / denominator

end Validate

/-! ## Basic lemmas about the embedding -/

theorem norm3_nonneg (v : Vec3) : 0 ≤ norm3 v := Real.sqrt_nonneg _

theorem dot_self_nonneg (v : Vec3) : 0 ≤ dot v v := by
  simp only [dot]; nlinarith [mul_self_nonneg v.x, mul_self_nonneg v.y, mul_self_nonneg v.z]

theorem norm3_sq (v : Vec3) : norm3 v * norm3 v = dot v v := by
  have h : (0:ℝ) ≤ v.x * v.x + v.y * v.y + v.z * v.z := by
    nlinarith [mul_self_nonneg v.x, mul_self_nonneg v.y, mul_self_nonneg v.z]
  simpa [norm3, dot] using Real.mul_self_sqrt h

/-- Cauchy–Schwarz for the 3D dot product and Euclidean norm. -/
theorem dot_le_norm3_mul (u v : Vec3) : dot u v ≤ norm3 u * norm3 v := by
  have hsq : dot u v * dot u v ≤ dot u u * dot v v := by
    simp only [dot]
    nlinarith [sq_nonneg (u.x * v.y - u.y * v.x), sq_nonneg (u.x * v.z - u.z * v.x),
      sq_nonneg (u.y * v.z - u.z * v.y)]
  nlinarith [norm3_nonneg u, norm3_nonneg v, norm3_sq u, norm3_sq v,
    mul_nonneg (norm3_nonneg u) (norm3_nonneg v), sq_nonneg (norm3 u * norm3 v - dot u v),
    sq_nonneg (norm3 u * norm3 v + dot u v)]

namespace Simulator

theorem simpsonWeight_nonneg (i n : ℕ) : 0 ≤ simpsonWeight i n := by
  unfold simpsonWeight
  split
  · norm_num
  · split <;> norm_num

theorem simpsonWeight_le_four (i n : ℕ) : simpsonWeight i n ≤ 4 := by
  unfold simpsonWeight
  split
  · norm_num
  · split <;> norm_num

theorem diskIntegrand_nonneg (phi r a L : ℝ) (hr : 0 ≤ r) :
    0 ≤ diskIntegrand phi r a L := by
  simp only [diskIntegrand]
  split
  · exact le_refl 0
  · exact div_nonneg hr (sq_nonneg _)

/-- The parallel-disk view factor is nonnegative for a nonnegative diameter. -/
theorem calculateDiskViewFactor_nonneg (a L D : ℝ) (hD : 0 ≤ D) :
    0 ≤ calculateDiskViewFactor a L D := by
  simp only [calculateDiskViewFactor]
  split
  · exact le_refl 0
  · apply mul_nonneg (div_nonneg (mul_self_nonneg L) Real.pi_pos.le)
    simp only [simpson2D]
    have hR : (0:ℝ) ≤ (D / 2 - 0) / 50 := by linarith
    have hPhi : (0:ℝ) ≤ (2 * Real.pi - 0) / 50 := by
      have := Real.pi_pos; linarith
    apply mul_nonneg (by positivity)
    apply Finset.sum_nonneg
    intro i _
    apply Finset.sum_nonneg
    intro j _
    apply mul_nonneg (mul_nonneg (simpsonWeight_nonneg _ _) (simpsonWeight_nonneg _ _))
    apply diskIntegrand_nonneg
    have : (0:ℝ) ≤ (i : ℝ) := Nat.cast_nonneg i
    nlinarith

end Simulator

namespace Exact

theorem diskIntegrandA4_nonneg (r phi : ℝ) (handPos cellNormal sourceCenter lampNormal : Vec3) :
    0 ≤ diskIntegrandA4 r phi handPos cellNormal sourceCenter lampNormal := by
  simp only [diskIntegrandA4]
  split
  · exact le_refl 0
  · rename_i hr
    push_neg at hr
    split
    · exact le_refl 0
    · rename_i hR2
      push_neg at hR2
      split
      · exact le_refl 0
      · rename_i hvis
        push_neg at hvis
        apply mul_nonneg
        · apply div_nonneg
          · exact mul_nonneg hvis.1.le (by linarith [hvis.2])
          · positivity
        · linarith [(by norm_num : (0:ℝ) < 1e-6)]

/-- The exact A.4 quadrature is nonnegative for a nonnegative radius. -/
theorem integrate2D_A4_nonneg (handPos cellNormal sourceCenter : Vec3) (rMax : ℝ)
    (hr : 0 ≤ rMax) (nR nPhi : ℕ) :
    0 ≤ integrate2D
      (fun r phi => diskIntegrandA4 r phi handPos cellNormal sourceCenter LAMP_NORMAL)
      rMax nR nPhi := by
  simp only [integrate2D]
  have hpi := Real.pi_pos
  apply mul_nonneg
  · apply mul_nonneg
    · apply Finset.sum_nonneg
      intro i _
      apply Finset.sum_nonneg
      intro j _
      exact mul_nonneg
        (mul_nonneg (Simulator.simpsonWeight_nonneg _ _) (Simulator.simpsonWeight_nonneg _ _))
        (diskIntegrandA4_nonneg _ _ _ _ _ _)
    · positivity
  · positivity

/-- The exact A.4 view factor is nonnegative for a nonnegative diameter. -/
theorem calculateDiskViewFactorA4_nonneg (s : Settings) (handPos cellNormal sourceCenter : Vec3)
    (D : ℝ) (hD : 0 ≤ D) :
    0 ≤ calculateDiskViewFactorA4 s handPos cellNormal sourceCenter D := by
  simp only [calculateDiskViewFactorA4]
  split
  · exact le_refl 0
  · split
    · exact le_refl 0
    · apply mul_nonneg (by positivity)
      exact integrate2D_A4_nonneg _ _ _ _ (by linarith) _ _

end Exact

/-! ## List helpers -/

theorem length_mapWithIndex {α β : Type} (f : ℕ → α → β) :
    ∀ (i : ℕ) (l : List α), (mapWithIndex f i l).length = l.length := by
  intro i l
  induction l generalizing i with
  | nil => rfl
  | cons a as ih => simp [mapWithIndex, ih]

theorem mapWithIndex_congr {α β : Type} (f : ℕ → α → β) (g : α → β) (l : List α)
    (h : ∀ (i : ℕ), ∀ a ∈ l, f i a = g a) :
    ∀ i : ℕ, mapWithIndex f i l = l.map g := by
  induction l with
  | nil => intro i; rfl
  | cons a as ih =>
    intro i
    have ha := h i a (List.mem_cons_self a as)
    have htail := ih (fun j b hb => h j b (List.mem_cons_of_mem a hb))
    simp [mapWithIndex, ha, htail (i + 1)]

namespace Simulator

theorem foldl_min_le_init (l : List ℝ) : ∀ acc : ℝ, l.foldl min acc ≤ acc := by
  induction l with
  | nil => intro acc; exact le_refl acc
  | cons x xs ih =>
    intro acc
    calc (x :: xs).foldl min acc = xs.foldl min (min acc x) := rfl
    _ ≤ min acc x := ih (min acc x)
    _ ≤ acc := min_le_left _ _

theorem foldl_min_le_mem (l : List ℝ) : ∀ (acc x : ℝ), x ∈ l → l.foldl min acc ≤ x := by
  induction l with
  | nil => intro _ x hx; cases hx
  | cons y ys ih =>
    intro acc x hx
    rcases List.mem_cons.mp hx with h | h
    · subst h
      calc (x :: ys).foldl min acc = ys.foldl min (min acc x) := rfl
      _ ≤ min acc x := foldl_min_le_init ys _
      _ ≤ x := min_le_right _ _
    · exact ih (min acc y) x h

theorem init_le_foldl_max (l : List ℝ) : ∀ acc : ℝ, acc ≤ l.foldl max acc := by
  induction l with
  | nil => intro acc; exact le_refl acc
  | cons x xs ih =>
    intro acc
    calc acc ≤ max acc x := le_max_left _ _
    _ ≤ xs.foldl max (max acc x) := ih (max acc x)
    _ = (x :: xs).foldl max acc := rfl

theorem mem_le_foldl_max (l : List ℝ) : ∀ (acc x : ℝ), x ∈ l → x ≤ l.foldl max acc := by
  induction l with
  | nil => intro _ x hx; cases hx
  | cons y ys ih =>
    intro acc x hx
    rcases List.mem_cons.mp hx with h | h
    · subst h
      calc x ≤ max acc x := le_max_right _ _
      _ ≤ ys.foldl max (max acc x) := init_le_foldl_max ys _
      _ = (x :: ys).foldl max acc := rfl
    · exact ih (max acc y) x h

theorem jsMin_le (l : List ℝ) (x : ℝ) (hx : x ∈ l) : jsMin l ≤ x := by
  cases l with
  | nil => cases hx
  | cons h t =>
    rcases List.mem_cons.mp hx with hh | ht
    · subst hh; exact foldl_min_le_init t x
    · exact foldl_min_le_mem t h x ht

theorem le_jsMax (l : List ℝ) (x : ℝ) (hx : x ∈ l) : x ≤ jsMax l := by
  cases l with
  | nil => cases hx
  | cons h t =>
    rcases List.mem_cons.mp hx with hh | ht
    · subst hh; exact init_le_foldl_max t x
    · exact mem_le_foldl_max t h x ht

theorem jsMin_le_jsMax (l : List ℝ) (hl : l ≠ []) : jsMin l ≤ jsMax l := by
  cases l with
  | nil => exact absurd rfl hl
  | cons h t =>
    exact le_trans (jsMin_le (h :: t) h (List.mem_cons_self h t))
      (le_jsMax (h :: t) h (List.mem_cons_self h t))

/-- A sum of elementwise squares is nonnegative. -/
theorem sq_sum_nonneg (F : List ℝ) : 0 ≤ (F.map (fun f => f * f)).sum := by
  apply List.sum_nonneg
  intro x hx
  rcases List.mem_map.mp hx with ⟨f, _, rfl⟩
  exact mul_self_nonneg f

/-- A sum of elementwise squares vanishes exactly when every element is 0. -/
theorem sq_sum_eq_zero_iff (F : List ℝ) :
    (F.map (fun f => f * f)).sum = 0 ↔ ∀ f ∈ F, f = 0 := by
  induction F with
  | nil => simp
  | cons f fs ih =>
    simp only [List.map_cons, List.sum_cons, List.mem_cons]
    constructor
    · intro h
      have h1 : 0 ≤ f * f := mul_self_nonneg f
      have h2 : 0 ≤ (fs.map (fun f => f * f)).sum := sq_sum_nonneg fs
      have hf : f * f = 0 := by linarith
      have hfs : (fs.map (fun f => f * f)).sum = 0 := by linarith
      intro g hg
      rcases hg with hg | hg
      · subst hg; exact mul_self_eq_zero.mp hf
      · exact ih.mp hfs g hg
    · intro h
      have hf : f = 0 := h f (Or.inl rfl)
      have hfs : (fs.map (fun f => f * f)).sum = 0 := ih.mpr (fun g hg => h g (Or.inr hg))
      simp [hf, hfs]

/-- Expansion of the residual sum of squares against a scalar multiple of `F`. -/
theorem residual_expand (F : List ℝ) (c : ℝ) :
    ∀ Q : List ℝ, F.length = Q.length →
      (List.zipWith (fun x y => (x - y) ^ 2) Q (applyKappaScaling F c)).sum
        = (Q.map (fun p => p ^ 2)).sum
          - 2 * c * (List.zipWith (fun f p => f * p) F Q).sum
          + c ^ 2 * (F.map (fun f => f * f)).sum := by
  induction F with
  | nil =>
    intro Q hQ
    have : Q = [] := List.length_eq_zero.mp hQ.symm
    subst this
    simp [applyKappaScaling]
  | cons f fs ih =>
    intro Q hQ
    cases Q with
    | nil => simp at hQ
    | cons q qs =>
      have hlen : fs.length = qs.length := by simpa using hQ
      have := ih qs hlen
      simp only [applyKappaScaling, List.map_cons, List.zipWith_cons_cons, List.sum_cons] at *
      rw [this]
      ring

end Simulator

/-- The validator's clamped parallel view factor is nonnegative. -/
theorem validate_viewFactor_nonneg (a L D : ℝ) : 0 ≤ Validate.calculateDiskViewFactor a L D := by
  simp only [Validate.calculateDiskViewFactor]
  split
  · exact le_refl 0
  · exact le_max_left 0 _

/-- The validator's clamped parallel view factor is at most one. -/
theorem validate_viewFactor_le_one (a L D : ℝ) : Validate.calculateDiskViewFactor a L D ≤ 1 := by
  simp only [Validate.calculateDiskViewFactor]
  split
  · norm_num
  · exact max_le (by norm_num) (min_le_left 1 _)

/-- Lower-bounding a nonnegative double Simpson sum by one of its terms. -/
theorem double_sum_ge_term (g : ℕ → ℕ → ℝ) (n m i0 j0 : ℕ)
    (hi : i0 ∈ Finset.range (n + 1)) (hj : j0 ∈ Finset.range (m + 1))
    (hnn : ∀ i ∈ Finset.range (n + 1), ∀ j ∈ Finset.range (m + 1), 0 ≤ g i j) :
    g i0 j0 ≤ Finset.sum (Finset.range (n + 1))
      (fun i => Finset.sum (Finset.range (m + 1)) (fun j => g i j)) := by
  calc g i0 j0 ≤ Finset.sum (Finset.range (m + 1)) (fun j => g i0 j) :=
        Finset.single_le_sum (hnn i0 hi) hj
  _ ≤ _ := Finset.single_le_sum
        (fun i hi' => Finset.sum_nonneg (hnn i hi')) hi

/-- The parallel view factor of the default source directly below its
center at height 100 mm is strictly positive. -/
theorem viewFactor_pos_below_center : 0 < Simulator.calculateDiskViewFactor 0 100 200 := by
  simp only [Simulator.calculateDiskViewFactor]
  rw [if_neg (by norm_num)]
  apply mul_pos (by positivity)
  simp only [Simulator.simpson2D]
  have hpi := Real.pi_pos
  apply mul_pos
  · nlinarith [hpi]
  · have hterm : (0:ℝ) < Simulator.simpsonWeight 1 50 * Simulator.simpsonWeight 0 50 *
        Simulator.diskIntegrand (0 + (0:ℕ) * ((2 * Real.pi - 0) / 50))
          (0 + (1:ℕ) * ((200 / 2 - 0) / 50)) 0 100 := by
      norm_num [Simulator.simpsonWeight, Simulator.diskIntegrand]
    calc (0:ℝ) < _ := hterm
    _ ≤ _ := by
      apply double_sum_ge_term
        (fun i j => Simulator.simpsonWeight i 50 * Simulator.simpsonWeight j 50 *
          Simulator.diskIntegrand (0 + j * ((2 * Real.pi - 0) / 50))
            (0 + i * ((200 / 2 - 0) / 50)) 0 100) 50 50 1 0
        (by simp) (by simp)
      intro i _ j _
      apply mul_nonneg (mul_nonneg (Simulator.simpsonWeight_nonneg _ _)
        (Simulator.simpsonWeight_nonneg _ _))
      apply Simulator.diskIntegrand_nonneg
      positivity

/-- Lower bound for the simulator's parallel view factor when the receiver
sits exactly under the rim of the default 200 mm source: the Simpson sample
at `r = 100`, `phi = 0` has denominator `(L²)²`, so the quadrature blows up
as `L → 0`. -/
theorem viewFactor_edge_lower_bound (L : ℝ) (hL : 0 < L) :
    8 / (9 * L ^ 2) ≤ Simulator.calculateDiskViewFactor 100 L 200 := by
  simp only [Simulator.calculateDiskViewFactor]
  rw [if_neg (by linarith)]
  simp only [Simulator.simpson2D]
  have hpi := Real.pi_pos
  have hLL : (0:ℝ) < L * L := by nlinarith
  have hterm : Simulator.simpsonWeight 50 50 * Simulator.simpsonWeight 0 50 *
      Simulator.diskIntegrand (0 + (0:ℕ) * ((2 * Real.pi - 0) / 50))
        (0 + (50:ℕ) * ((200 / 2 - 0) / 50)) 100 L = 100 / (L * L) ^ 2 := by
    have h0 : ((0:ℕ):ℝ) * ((2 * Real.pi - 0) / 50) = 0 := by norm_num
    have h50 : (0:ℝ) + ((50:ℕ):ℝ) * ((200 / 2 - 0) / 50) = 100 := by norm_num
    rw [h0, add_zero, h50]
    have hw1 : Simulator.simpsonWeight 50 50 = 1 := by norm_num [Simulator.simpsonWeight]
    have hw2 : Simulator.simpsonWeight 0 50 = 1 := by norm_num [Simulator.simpsonWeight]
    rw [hw1, hw2]
    simp only [Simulator.diskIntegrand, Real.cos_zero]
    have hbase : (100:ℝ) * 100 - 2 * 100 * 100 * 1 + 100 * 100 + L * L = L * L := by ring
    rw [hbase, if_neg (by positivity)]
    ring
  have hsum : 100 / (L * L) ^ 2 ≤ Finset.sum (Finset.range (50 + 1))
      (fun i => Finset.sum (Finset.range (50 + 1))
        (fun j => Simulator.simpsonWeight i 50 * Simulator.simpsonWeight j 50 *
          Simulator.diskIntegrand (0 + j * ((2 * Real.pi - 0) / 50))
            (0 + i * ((200 / 2 - 0) / 50)) 100 L)) := by
    rw [← hterm]
    apply double_sum_ge_term
      (fun i j => Simulator.simpsonWeight i 50 * Simulator.simpsonWeight j 50 *
        Simulator.diskIntegrand (0 + j * ((2 * Real.pi - 0) / 50))
          (0 + i * ((200 / 2 - 0) / 50)) 100 L) 50 50 50 0 (by simp) (by simp)
    intro i _ j _
    apply mul_nonneg (mul_nonneg (Simulator.simpsonWeight_nonneg _ _)
      (Simulator.simpsonWeight_nonneg _ _))
    apply Simulator.diskIntegrand_nonneg
    positivity
  have hcoef : (0:ℝ) < (200 / 2 - 0) / 50 * ((2 * Real.pi - 0) / 50) / 9 := by
    nlinarith [hpi]
  calc 8 / (9 * L ^ 2)
      = (L * L / Real.pi) * ((200 / 2 - 0) / 50 * ((2 * Real.pi - 0) / 50) / 9
          * (100 / (L * L) ^ 2)) := by
        field_simp
        ring
  _ ≤ (L * L / Real.pi) * ((200 / 2 - 0) / 50 * ((2 * Real.pi - 0) / 50) / 9
          * Finset.sum (Finset.range (50 + 1))
            (fun i => Finset.sum (Finset.range (50 + 1))
              (fun j => Simulator.simpsonWeight i 50 * Simulator.simpsonWeight j 50 *
                Simulator.diskIntegrand (0 + j * ((2 * Real.pi - 0) / 50))
                  (0 + i * ((200 / 2 - 0) / 50)) 100 L))) := by
        apply mul_le_mul_of_nonneg_left _ (by positivity)
        exact mul_le_mul_of_nonneg_left hsum hcoef.le
  _ = _ := rfl

/-- At zero lateral offset and height `1/100`, every Simpson sample value of
the disk integrand is at most `1/8` (the sample radii are `0, 2, 4, …`). -/
theorem diskIntegrand_bound_center (phi r : ℝ) (hr0 : r = 0 ∨ 2 ≤ r) :
    Simulator.diskIntegrand phi r 0 (1 / 100) ≤ 1 / 8 := by
  simp only [Simulator.diskIntegrand]
  split
  · norm_num
  · rename_i hne
    have hpos : 0 < (r * r - 2 * 0 * r * Real.cos phi + 0 * 0 + 1 / 100 * (1 / 100)) ^ 2 :=
      lt_of_le_of_ne (sq_nonneg _) (Ne.symm hne)
    rw [div_le_iff₀ hpos]
    rcases hr0 with h | h
    · subst h
      nlinarith [sq_nonneg (Real.cos phi)]
    · have h2 : (4:ℝ) ≤ r * r := by nlinarith
      have h3 : (8:ℝ) ≤ r * r * r := by nlinarith
      nlinarith [sq_nonneg (r * r), mul_le_mul_of_nonneg_left h3 (by linarith : (0:ℝ) ≤ r)]

/-- Upper bound for the simulator's parallel view factor directly below the
source center at height `1/100`: the Simpson grid (spacing 2 mm) entirely
misses the sharp peak of the integrand near `r = 0`, so the quadrature
result is at most 1 (in fact about 0.005, while the true integral is ≈1). -/
theorem viewFactor_center_small_ub :
    Simulator.calculateDiskViewFactor 0 (1 / 100) 200 ≤ 1 := by
  simp only [Simulator.calculateDiskViewFactor]
  rw [if_neg (by norm_num)]
  simp only [Simulator.simpson2D]
  have hpi := Real.pi_pos
  have hinner : ∀ i ∈ Finset.range (50 + 1),
      Finset.sum (Finset.range (50 + 1))
        (fun j => Simulator.simpsonWeight i 50 * Simulator.simpsonWeight j 50 *
          Simulator.diskIntegrand (0 + j * ((2 * Real.pi - 0) / 50))
            (0 + i * ((200 / 2 - 0) / 50)) 0 (1 / 100)) ≤ (102:ℝ) := by
    intro i _
    have hstep : ∀ j ∈ Finset.range (50 + 1),
        Simulator.simpsonWeight i 50 * Simulator.simpsonWeight j 50 *
          Simulator.diskIntegrand (0 + j * ((2 * Real.pi - 0) / 50))
            (0 + i * ((200 / 2 - 0) / 50)) 0 (1 / 100) ≤ (2:ℝ) := by
      intro j _
      have hrdisj : (0:ℝ) + i * ((200 / 2 - 0) / 50) = 0
          ∨ (2:ℝ) ≤ 0 + i * ((200 / 2 - 0) / 50) := by
        rcases Nat.eq_zero_or_pos i with hz | hp
        · left
          subst hz
          norm_num
        · right
          have h1 : (1:ℝ) ≤ (i:ℝ) := by exact_mod_cast hp
          nlinarith
      have hrnn : (0:ℝ) ≤ 0 + i * ((200 / 2 - 0) / 50) := by positivity
      have hf := diskIntegrand_bound_center (0 + j * ((2 * Real.pi - 0) / 50))
        (0 + i * ((200 / 2 - 0) / 50)) hrdisj
      have hfnn := Simulator.diskIntegrand_nonneg (0 + j * ((2 * Real.pi - 0) / 50))
        (0 + i * ((200 / 2 - 0) / 50)) 0 (1 / 100) hrnn
      have hwprod : Simulator.simpsonWeight i 50 * Simulator.simpsonWeight j 50 ≤ 16 := by
        have h1 := Simulator.simpsonWeight_le_four i 50
        have h2 := Simulator.simpsonWeight_le_four j 50
        have h3 := Simulator.simpsonWeight_nonneg i 50
        have h4 := Simulator.simpsonWeight_nonneg j 50
        nlinarith
      have hwnn : (0:ℝ) ≤ Simulator.simpsonWeight i 50 * Simulator.simpsonWeight j 50 :=
        mul_nonneg (Simulator.simpsonWeight_nonneg _ _) (Simulator.simpsonWeight_nonneg _ _)
      have := mul_le_mul hwprod hf hfnn (by norm_num : (0:ℝ) ≤ 16)
      linarith
    refine le_trans (Finset.sum_le_sum hstep) ?_
    rw [Finset.sum_const, Finset.card_range]
    norm_num
  have hS : Finset.sum (Finset.range (50 + 1))
      (fun i => Finset.sum (Finset.range (50 + 1))
        (fun j => Simulator.simpsonWeight i 50 * Simulator.simpsonWeight j 50 *
          Simulator.diskIntegrand (0 + j * ((2 * Real.pi - 0) / 50))
            (0 + i * ((200 / 2 - 0) / 50)) 0 (1 / 100))) ≤ (5202:ℝ) := by
    refine le_trans (Finset.sum_le_sum hinner) ?_
    rw [Finset.sum_const, Finset.card_range]
    norm_num
  have hcoefnn : (0:ℝ) ≤ (200 / 2 - 0) / 50 * ((2 * Real.pi - 0) / 50) / 9 := by
    nlinarith [hpi]
  refine le_trans (mul_le_mul_of_nonneg_left
    (mul_le_mul_of_nonneg_left hS hcoefnn) (by positivity)) ?_
  have hne : Real.pi ≠ 0 := Real.pi_ne_zero
  field_simp
  rw [div_le_one (by positivity)]
  nlinarith [hpi]

/-- The Simpson-sampled disk integrand is pointwise antitone in the lateral
offset once the offset is at least the sample radius. -/
theorem diskIntegrand_anti (phi r a1 a2 L : ℝ) (hr : 0 ≤ r) (hra : r ≤ a1)
    (h12 : a1 ≤ a2) (hL : L ≠ 0) :
    Simulator.diskIntegrand phi r a2 L ≤ Simulator.diskIntegrand phi r a1 L := by
  have hcos1 := Real.cos_le_one phi
  have hcossq := Real.cos_sq_le_one phi
  have hL2 : 0 < L * L := mul_self_pos.mpr hL
  have hg1 : 0 < r * r - 2 * a1 * r * Real.cos phi + a1 * a1 + L * L := by
    nlinarith [sq_nonneg (a1 - r * Real.cos phi), sq_nonneg r]
  have hrc : r * Real.cos phi ≤ r := by nlinarith
  have hg12 : r * r - 2 * a1 * r * Real.cos phi + a1 * a1 + L * L
      ≤ r * r - 2 * a2 * r * Real.cos phi + a2 * a2 + L * L := by
    nlinarith [mul_nonneg (sub_nonneg.mpr h12)
      (by linarith : (0:ℝ) ≤ a1 + a2 - 2 * (r * Real.cos phi))]
  have hg2 : 0 < r * r - 2 * a2 * r * Real.cos phi + a2 * a2 + L * L := by linarith
  simp only [Simulator.diskIntegrand]
  rw [if_neg (by positivity), if_neg (by positivity)]
  apply div_le_div_of_nonneg_left hr (by positivity)
  exact pow_le_pow_left₀ hg1.le hg12 2

/-! ## Claim theorems -/

/-- C5: when the receiver is not strictly below the light-source plane
(`H ≤ 0`, i.e. the hand's height is at least the lamp-center height), the
parallel-disk model and the oriented-exact model both return view factor 0
(no exception is raised: both functions are total). -/
theorem C5_invalid_geometry_yields_zero (a L D : ℝ) (s : Exact.Settings)
    (handPos cellNormal sourceCenter : Vec3) (D2 : ℝ)
    (hL : L ≤ 0) (hy : sourceCenter.y ≤ handPos.y) :
    Simulator.calculateDiskViewFactor a L D = 0 ∧
    Exact.calculateDiskViewFactorA4 s handPos cellNormal sourceCenter D2 = 0 := by
  constructor
  · simp [Simulator.calculateDiskViewFactor, hL]
  · simp only [Exact.calculateDiskViewFactorA4]
    split
    · rfl
    · simp [hy]

/-- Witness for C5 at a concrete input: hand at height 900 mm, lamp at
868.82 mm, so `H = -31.18 ≤ 0`; both models return 0. -/
theorem C5_witness :
    Simulator.calculateDiskViewFactor 10 (-5) 200 = 0 ∧
    Exact.calculateDiskViewFactorA4 Exact.defaultSettings ⟨0, 900, 0⟩ ⟨0, -1, 0⟩
      ⟨0, 868.82, 0⟩ 200 = 0 :=
  C5_invalid_geometry_yields_zero 10 (-5) 200 Exact.defaultSettings
    ⟨0, 900, 0⟩ ⟨0, -1, 0⟩ ⟨0, 868.82, 0⟩ 200 (by norm_num) (by norm_num)

/-- C9: both trajectory simulators return result arrays whose lengths all
equal the length of the input positions array. -/
theorem C9_output_lengths (positions : List Vec3) (normals : Option (List Vec3))
    (model : String) (sourceCenter : Vec3) (D : ℝ) (s : Exact.Settings) :
    ((Simulator.simulateSolarPower positions normals model sourceCenter D).power.length
        = positions.length ∧
      (Simulator.simulateSolarPower positions normals model sourceCenter D).a_values.length
        = positions.length ∧
      (Simulator.simulateSolarPower positions normals model sourceCenter D).H_values.length
        = positions.length) ∧
    ((Exact.simulateSolarPowerExact s positions normals sourceCenter D model).power.length
        = positions.length ∧
      (Exact.simulateSolarPowerExact s positions normals sourceCenter D model).a_values.length
        = positions.length ∧
      (Exact.simulateSolarPowerExact s positions normals sourceCenter D model).H_values.length
        = positions.length ∧
      (Exact.simulateSolarPowerExact s positions normals sourceCenter D model).theta_values.length
        = positions.length) := by
  simp [Simulator.simulateSolarPower, Exact.simulateSolarPowerExact, length_mapWithIndex]

/-- C8: the three metrics functions all fail with an error on mismatched
input lengths, and on equal-length inputs `calculateRMSE` succeeds with
`sqrt(mean((a_i - b_i)^2))`. -/
theorem C8_metrics_length_guard (a b : List ℝ) :
    (a.length ≠ b.length →
      (∃ e, Simulator.calculateRMSE a b = Except.error e) ∧
      (∃ e, Simulator.calculateR2 a b = Except.error e) ∧
      (∃ e, Simulator.calculateCorrelation a b = Except.error e)) ∧
    (a.length = b.length →
      Simulator.calculateRMSE a b = Except.ok (Real.sqrt
        ((List.zipWith (fun x y => (x - y) ^ 2) a b).sum / a.length))) := by
  constructor
  · intro h
    refine ⟨?_, ?_, ?_⟩ <;>
      exact ⟨("Arrays must have same length"), by
        simp [Simulator.calculateRMSE, Simulator.calculateR2, Simulator.calculateCorrelation, h]⟩
  · intro h
    simp [Simulator.calculateRMSE, h]

/-- Witness for C8: a mismatched pair `[3]`, `[]` makes all three metrics
fail, and the equal-length pair `[3]`, `[1]` yields the RMSE formula. -/
theorem C8_witness :
    (∃ e, Simulator.calculateRMSE [(3:ℝ)] [] = Except.error e) ∧
    Simulator.calculateRMSE [(3:ℝ)] [1] = Except.ok (Real.sqrt
      ((List.zipWith (fun x y => (x - y) ^ 2) [(3:ℝ)] [(1:ℝ)]).sum / ([(3:ℝ)].length : ℝ)) ) :=
  ⟨((C8_metrics_length_guard [3] []).1 (by simp)).1,
    (C8_metrics_length_guard [3] [1]).2 rfl⟩

/-- C2 counterexample: the validator's duplicate of `calculateKappa`
(`tests/validate.js`) silently returns the default `1.0` on the all-zero
view-factor input `F = [0]` (zero denominator) instead of failing. -/
theorem C2_counterexample :
    Validate.calculateKappa [(0:ℝ)] [5] = 1 ∧
    (([(0:ℝ)].map (fun f => f * f)).sum = 0) := by
  constructor
  · simp [Validate.calculateKappa]
  · simp

/-- C2 amended: the simulator's `calculateKappa` fails with an error exactly
when the denominator `Σ F_i²` is zero (equivalently, all view factors are
zero); but the validator's duplicate `calculateKappa` instead silently
returns the default `1.0` in that case. -/
theorem C2_kappa_error_iff (F P : List ℝ) (h : F.length = P.length) :
    ((∃ e, Simulator.calculateKappa F P = Except.error e) ↔
      (F.map (fun f => f * f)).sum = 0) ∧
    ((F.map (fun f => f * f)).sum = 0 ↔ ∀ f ∈ F, f = 0) ∧
    ((F.map (fun f => f * f)).sum = 0 → Validate.calculateKappa F P = 1) := by
  refine ⟨?_, Simulator.sq_sum_eq_zero_iff F, ?_⟩
  · simp only [Simulator.calculateKappa]
    rw [if_neg (by simp [h])]
    constructor
    · rintro ⟨e, he⟩
      by_contra hden
      rw [if_neg hden] at he
      exact Except.noConfusion he
    · intro hden
      exact ⟨_, by rw [if_pos hden]⟩
  · intro hden
    simp [Validate.calculateKappa, hden]

/-- Witness for C2 at a concrete input: `F = [0]`, `P = [1]` (equal lengths);
the simulator fails, the validator silently returns 1. -/
theorem C2_witness :
    (∃ e, Simulator.calculateKappa [(0:ℝ)] [1] = Except.error e) ∧
    Validate.calculateKappa [(0:ℝ)] [1] = 1 :=
  ⟨((C2_kappa_error_iff [0] [1] rfl).1).mpr (by simp),
    ((C2_kappa_error_iff [0] [1] rfl).2.2) (by simp)⟩

/-- C10: `applyPerSegmentScaling` returns an array of the same length as the
simulated series, every element lies within the measured series' range, and
a constant simulated series yields an array filled with the measured
minimum. -/
theorem C10_per_segment_scaling (simPower realPower : List ℝ)
    (_hs : simPower ≠ []) (hr : realPower ≠ []) :
    (Simulator.applyPerSegmentScaling simPower realPower).length = simPower.length ∧
    (∀ x ∈ Simulator.applyPerSegmentScaling simPower realPower,
      Simulator.jsMin realPower ≤ x ∧ x ≤ Simulator.jsMax realPower) ∧
    (Simulator.jsMax simPower = Simulator.jsMin simPower →
      Simulator.applyPerSegmentScaling simPower realPower
        = List.replicate simPower.length (Simulator.jsMin realPower)) := by
  have hreal : Simulator.jsMin realPower ≤ Simulator.jsMax realPower :=
    Simulator.jsMin_le_jsMax realPower hr
  simp only [Simulator.applyPerSegmentScaling]
  split
  · rename_i hlt
    refine ⟨by simp, ?_, ?_⟩
    · intro x hx
      rcases List.mem_map.mp hx with ⟨t, ht, rfl⟩
      rcases List.mem_map.mp ht with ⟨p, hp, rfl⟩
      have h1 : Simulator.jsMin simPower ≤ p := Simulator.jsMin_le simPower p hp
      have h2 : p ≤ Simulator.jsMax simPower := Simulator.le_jsMax simPower p hp
      have hd : 0 < Simulator.jsMax simPower - Simulator.jsMin simPower := by linarith
      have hn0 : 0 ≤ (p - Simulator.jsMin simPower)
          / (Simulator.jsMax simPower - Simulator.jsMin simPower) :=
        div_nonneg (by linarith) hd.le
      have hn1 : (p - Simulator.jsMin simPower)
          / (Simulator.jsMax simPower - Simulator.jsMin simPower) ≤ 1 :=
        (div_le_one hd).mpr (by linarith)
      constructor
      · nlinarith
      · nlinarith
    · intro hconst
      exact absurd hlt (by rw [hconst]; exact lt_irrefl _)
  · refine ⟨by simp, ?_, fun _ => rfl⟩
    intro x hx
    have := List.eq_of_mem_replicate hx
    subst this
    exact ⟨le_refl _, hreal⟩

/-- C1 counterexample: with `H = 0.1 > 0` and `D = 200 > 0` (offset
`a = 100`, the source rim), the simulator's `calculateDiskViewFactor`
returns a value strictly greater than 1 — the result is NOT clamped at the
boundary (the lower bound `8/(9·0.01) ≈ 88.9` already exceeds 1). -/
theorem C1_counterexample : 1 < Simulator.calculateDiskViewFactor 100 (1 / 10) 200 := by
  have h := viewFactor_edge_lower_bound (1 / 10) (by norm_num)
  calc (1:ℝ) < 8 / (9 * (1 / 10) ^ 2) := by norm_num
  _ ≤ _ := h

/-- C1 amended: for a nonnegative diameter the evaluations of
`calculateDiskViewFactor` (simulator.js) and `calculateDiskViewFactorA4`
(simulator_exact.js) are nonnegative, but neither clamps above; only the
validator's copy of the parallel model clamps, and its result always lies
in `[0, 1]`. -/
theorem C1_amended_bounds (a L D : ℝ) (s : Exact.Settings)
    (handPos cellNormal sourceCenter : Vec3) (hD : 0 ≤ D) :
    0 ≤ Simulator.calculateDiskViewFactor a L D ∧
    0 ≤ Exact.calculateDiskViewFactorA4 s handPos cellNormal sourceCenter D ∧
    0 ≤ Validate.calculateDiskViewFactor a L D ∧
    Validate.calculateDiskViewFactor a L D ≤ 1 :=
  ⟨Simulator.calculateDiskViewFactor_nonneg a L D hD,
    Exact.calculateDiskViewFactorA4_nonneg s handPos cellNormal sourceCenter D hD,
    validate_viewFactor_nonneg a L D, validate_viewFactor_le_one a L D⟩

/-- Witness for C1 (amended) at a concrete input. -/
theorem C1_witness :
    (0:ℝ) ≤ 200 ∧
    (0 ≤ Simulator.calculateDiskViewFactor 0 700 200 ∧
      0 ≤ Exact.calculateDiskViewFactorA4 Exact.defaultSettings ⟨0, 0, 0⟩ ⟨0, 1, 0⟩
        ⟨0, 700, 0⟩ 200 ∧
      0 ≤ Validate.calculateDiskViewFactor 0 700 200 ∧
      Validate.calculateDiskViewFactor 0 700 200 ≤ 1) :=
  ⟨by norm_num, C1_amended_bounds 0 700 200 Exact.defaultSettings ⟨0, 0, 0⟩ ⟨0, 1, 0⟩
    ⟨0, 700, 0⟩ (by norm_num)⟩

/-- C3 counterexample: feeding an all-zero normal to the oriented simulation
`simulateSolarPower` does NOT yield simulated power 0: for a hand directly
below the lamp, the zero normal makes `simulateSolarPower` skip the
orientation factor entirely (the `normCellNormal > 0` guard fails), so the
sample's power is the strictly positive parallel view factor. -/
theorem C3_counterexample :
    (Simulator.simulateSolarPower [⟨0, 0, 0⟩] (some [⟨0, 0, 0⟩]) orientedTag
      ⟨0, 100, 0⟩ 200).power ≠ [0] := by
  have hpos := viewFactor_pos_below_center
  intro h
  have heq : Simulator.samplePower orientedTag (some [⟨0, 0, 0⟩]) ⟨0, 100, 0⟩ 200 0 ⟨0, 0, 0⟩
      = Simulator.calculateDiskViewFactor 0 100 200 := by
    simp [Simulator.samplePower, Simulator.calculateGeometry, norm3]
  simp only [Simulator.simulateSolarPower, mapWithIndex, List.cons.injEq, and_true] at h
  rw [heq] at h
  exact absurd h (ne_of_gt hpos)

/-- C3 amended: with all-zero normals, the oriented `simulateSolarPower`
returns the UNSCALED parallel view factor for every sample (the orientation
branch is skipped when the cell-normal magnitude is not positive); only the
validator's `calculateOrientationAwareApprox` resolves the orientation
factor to 0 (its explicit 1e-6 threshold) and hence returns power 0. -/
theorem C3_amended_zero_normals (positions ns : List Vec3) (sourceCenter : Vec3) (D : ℝ)
    (hns : ∀ n ∈ ns, n = (⟨0, 0, 0⟩ : Vec3)) :
    (Simulator.simulateSolarPower positions (some ns) orientedTag sourceCenter D).power
      = positions.map (fun p => Simulator.calculateDiskViewFactor
          (Simulator.calculateGeometry p sourceCenter).1
          (Simulator.calculateGeometry p sourceCenter).2 D) ∧
    (∀ a L D2 : ℝ, ∀ cellPos lightPos : Vec3,
      Validate.calculateOrientationAwareApprox a L D2 ⟨0, 0, 0⟩ cellPos lightPos = 0) := by
  constructor
  · have hget : ∀ i : ℕ, (ns[i]?).getD (⟨0, 0, 0⟩ : Vec3) = (⟨0, 0, 0⟩ : Vec3) := by
      intro i
      by_cases hi : i < ns.length
      · rw [List.getElem?_eq_getElem hi, Option.getD_some]
        exact hns _ (List.getElem_mem hi)
      · rw [List.getElem?_eq_none (by omega)]
        rfl
    simp only [Simulator.simulateSolarPower]
    apply mapWithIndex_congr
    intro i p _
    simp [Simulator.samplePower, hget, norm3]
  · intro a L D2 cellPos lightPos
    simp [Validate.calculateOrientationAwareApprox, norm3]

/-- Witness for C3 (amended) at a concrete input: one sample directly below
the lamp with a zero normal. -/
theorem C3_witness :
    (∀ n ∈ [(⟨0, 0, 0⟩ : Vec3)], n = (⟨0, 0, 0⟩ : Vec3)) ∧
    (Simulator.simulateSolarPower [⟨0, 0, 0⟩] (some [⟨0, 0, 0⟩]) orientedTag
        ⟨0, 100, 0⟩ 200).power
      = [(⟨0, 0, 0⟩ : Vec3)].map (fun p => Simulator.calculateDiskViewFactor
          (Simulator.calculateGeometry p ⟨0, 100, 0⟩).1
          (Simulator.calculateGeometry p ⟨0, 100, 0⟩).2 200) :=
  ⟨by simp,
    (C3_amended_zero_normals [⟨0, 0, 0⟩] [⟨0, 0, 0⟩] ⟨0, 100, 0⟩ 200 (by simp)).1⟩

/-- C4: the least-squares kappa returned by `calculateKappa` minimizes the
RMSE between the measured power and any scalar multiple of the view-factor
series: whenever `calculateKappa F P` succeeds with `k`, the RMSE of
`applyKappaScaling F k` against `P` is no worse than the RMSE of
`applyKappaScaling F c` against `P` for any scalar `c`. -/
theorem C4_kappa_optimal (F P : List ℝ) (k c r1 r2 : ℝ)
    (hk : Simulator.calculateKappa F P = Except.ok k)
    (h1 : Simulator.calculateRMSE P (Simulator.applyKappaScaling F k) = Except.ok r1)
    (h2 : Simulator.calculateRMSE P (Simulator.applyKappaScaling F c) = Except.ok r2) :
    r1 ≤ r2 := by
  have hlen : F.length = P.length := by
    by_contra hne
    simp only [Simulator.calculateKappa] at hk
    rw [if_pos hne] at hk
    exact Except.noConfusion hk
  simp only [Simulator.calculateKappa] at hk
  rw [if_neg (by simp [hlen])] at hk
  by_cases hden : (F.map (fun f => f * f)).sum = 0
  · rw [if_pos hden] at hk
    exact Except.noConfusion hk
  rw [if_neg hden] at hk
  have hkval : (List.zipWith (fun f p => f * p) F P).sum
      / (F.map (fun f => f * f)).sum = k := Except.ok.inj hk
  have hnum : (List.zipWith (fun f p => f * p) F P).sum
      = k * (F.map (fun f => f * f)).sum := (div_eq_iff hden).mp hkval
  have hscaled : ∀ x : ℝ, ¬(P.length ≠ (Simulator.applyKappaScaling F x).length) := by
    intro x
    simp [Simulator.applyKappaScaling, hlen]
  simp only [Simulator.calculateRMSE] at h1 h2
  rw [if_neg (hscaled k)] at h1
  rw [if_neg (hscaled c)] at h2
  have hr1 := (Except.ok.inj h1).symm
  have hr2 := (Except.ok.inj h2).symm
  have hSle : (List.zipWith (fun x y => (x - y) ^ 2) P (Simulator.applyKappaScaling F k)).sum
      ≤ (List.zipWith (fun x y => (x - y) ^ 2) P (Simulator.applyKappaScaling F c)).sum := by
    rw [Simulator.residual_expand F k P hlen, Simulator.residual_expand F c P hlen, hnum]
    have hdnn : 0 ≤ (F.map (fun f => f * f)).sum := Simulator.sq_sum_nonneg F
    nlinarith [mul_nonneg hdnn (sq_nonneg (k - c))]
  rw [hr1, hr2]
  apply Real.sqrt_le_sqrt
  rcases eq_or_ne ((P.length : ℝ)) 0 with h0 | h0
  · rw [h0]
    simp
  · have hpos : (0:ℝ) < P.length :=
      lt_of_le_of_ne (Nat.cast_nonneg _) (Ne.symm h0)
    exact (div_le_div_iff_of_pos_right hpos).mpr hSle

/-- Witness for C4 at a concrete input: `F = [1]`, `P = [2]`, `c = 0`;
the fitted kappa is 2 with RMSE 0, while `c = 0` gives RMSE 2. -/
theorem C4_witness :
    Simulator.calculateKappa [(1:ℝ)] [2] = Except.ok 2 ∧
    Simulator.calculateRMSE [(2:ℝ)] (Simulator.applyKappaScaling [1] 2) = Except.ok 0 ∧
    Simulator.calculateRMSE [(2:ℝ)] (Simulator.applyKappaScaling [1] 0) = Except.ok 2 ∧
    (0:ℝ) ≤ 2 := by
  have h1 : Simulator.calculateKappa [(1:ℝ)] [2] = Except.ok 2 := by
    simp [Simulator.calculateKappa]
  have h2 : Simulator.calculateRMSE [(2:ℝ)] (Simulator.applyKappaScaling [1] 2)
      = Except.ok 0 := by
    simp [Simulator.calculateRMSE, Simulator.applyKappaScaling]
  have h3 : Simulator.calculateRMSE [(2:ℝ)] (Simulator.applyKappaScaling [1] 0)
      = Except.ok 2 := by
    simp only [Simulator.calculateRMSE, Simulator.applyKappaScaling]
    rw [if_neg (by simp)]
    norm_num
    rw [show (4:ℝ) = 2 ^ 2 by norm_num]
    exact Real.sqrt_sq (by norm_num)
  exact ⟨h1, h2, h3, C4_kappa_optimal [1] [2] 2 0 0 2 h1 h2 h3⟩

/-- C6: the oriented-approximate per-sample view factor never exceeds the
parallel-disk view factor at the same geometry: for the validator's
function the bound is unconditional, and for the simulator's per-sample
power it holds for a nonnegative diameter (the orientation factor
`max(0, cos θ)` lies in `[0,1]` and the parallel view factor is
nonnegative). -/
theorem C6_oriented_le_parallel (a L D : ℝ) (palmNormal cellPos lightPos : Vec3)
    (model : String) (normals : Option (List Vec3)) (sourceCenter : Vec3)
    (i : ℕ) (handPos : Vec3) (hD : 0 ≤ D) :
    Validate.calculateOrientationAwareApprox a L D palmNormal cellPos lightPos
      ≤ Validate.calculateDiskViewFactor a L D ∧
    Simulator.samplePower model normals sourceCenter D i handPos
      ≤ Simulator.calculateDiskViewFactor
          (Simulator.calculateGeometry handPos sourceCenter).1
          (Simulator.calculateGeometry handPos sourceCenter).2 D := by
  constructor
  · simp only [Validate.calculateOrientationAwareApprox]
    split
    · exact validate_viewFactor_nonneg a L D
    · rename_i hcond
      push_neg at hcond
      have hnc : (0:ℝ) < norm3 ⟨-palmNormal.x, -palmNormal.y, -palmNormal.z⟩ := by
        calc (0:ℝ) < 1e-6 := by norm_num
        _ ≤ _ := hcond.1
      have hnv : (0:ℝ) < norm3 ⟨lightPos.x - cellPos.x, lightPos.y - cellPos.y,
          lightPos.z - cellPos.z⟩ := by
        calc (0:ℝ) < 1e-6 := by norm_num
        _ ≤ _ := hcond.2
      have hcs := dot_le_norm3_mul ⟨-palmNormal.x, -palmNormal.y, -palmNormal.z⟩
        ⟨lightPos.x - cellPos.x, lightPos.y - cellPos.y, lightPos.z - cellPos.z⟩
      have hfac : max 0 (dot ⟨-palmNormal.x, -palmNormal.y, -palmNormal.z⟩
          ⟨lightPos.x - cellPos.x, lightPos.y - cellPos.y, lightPos.z - cellPos.z⟩
            / (norm3 ⟨-palmNormal.x, -palmNormal.y, -palmNormal.z⟩
              * norm3 ⟨lightPos.x - cellPos.x, lightPos.y - cellPos.y,
                  lightPos.z - cellPos.z⟩)) ≤ 1 :=
        max_le (by norm_num) ((div_le_one (mul_pos hnc hnv)).mpr hcs)
      exact mul_le_of_le_one_right (validate_viewFactor_nonneg a L D) hfac
  · have hvf := Simulator.calculateDiskViewFactor_nonneg
      (Simulator.calculateGeometry handPos sourceCenter).1
      (Simulator.calculateGeometry handPos sourceCenter).2 D hD
    cases normals with
    | none =>
      simp only [Simulator.samplePower]
      exact le_refl _
    | some ns =>
      simp only [Simulator.samplePower]
      split
      · split
        · rename_i hpos
          have hcs := dot_le_norm3_mul
            ⟨-(ns.getD i ⟨0, 0, 0⟩).x, -(ns.getD i ⟨0, 0, 0⟩).y, -(ns.getD i ⟨0, 0, 0⟩).z⟩
            ⟨sourceCenter.x - handPos.x, sourceCenter.y - handPos.y, sourceCenter.z - handPos.z⟩
          have hfac : max 0 (dot
              ⟨-(ns.getD i ⟨0, 0, 0⟩).x, -(ns.getD i ⟨0, 0, 0⟩).y, -(ns.getD i ⟨0, 0, 0⟩).z⟩
              ⟨sourceCenter.x - handPos.x, sourceCenter.y - handPos.y, sourceCenter.z - handPos.z⟩
              / (norm3 ⟨-(ns.getD i ⟨0, 0, 0⟩).x, -(ns.getD i ⟨0, 0, 0⟩).y,
                  -(ns.getD i ⟨0, 0, 0⟩).z⟩
                * norm3 ⟨sourceCenter.x - handPos.x, sourceCenter.y - handPos.y,
                    sourceCenter.z - handPos.z⟩)) ≤ 1 :=
            max_le (by norm_num) ((div_le_one (mul_pos hpos.1 hpos.2)).mpr hcs)
          exact mul_le_of_le_one_right hvf hfac
        · exact le_refl _
      · exact le_refl _

/-- Witness for C6 at a concrete input. -/
theorem C6_witness :
    Validate.calculateOrientationAwareApprox 0 700 200 ⟨0, -1, 0⟩ ⟨0, 0, 0⟩ ⟨0, 700, 0⟩
      ≤ Validate.calculateDiskViewFactor 0 700 200 ∧
    Simulator.samplePower orientedTag (some [⟨0, -1, 0⟩]) ⟨0, 700, 0⟩ 200 0 ⟨0, 0, 0⟩
      ≤ Simulator.calculateDiskViewFactor
          (Simulator.calculateGeometry ⟨0, 0, 0⟩ ⟨0, 700, 0⟩).1
          (Simulator.calculateGeometry ⟨0, 0, 0⟩ ⟨0, 700, 0⟩).2 200 :=
  C6_oriented_le_parallel 0 700 200 ⟨0, -1, 0⟩ ⟨0, 0, 0⟩ ⟨0, 700, 0⟩
    orientedTag (some [⟨0, -1, 0⟩]) ⟨0, 700, 0⟩ 0 ⟨0, 0, 0⟩ (by norm_num)

/-- C7 counterexample: monotonicity in the lateral offset fails for the
Simpson-quadrature view factor. At `H = 1/100 > 0`, `D = 200 > 0` and
offsets `a1 = 0 ≤ a2 = 100`, the value at the larger offset is strictly
bigger (the `r = 100, phi = 0` Simpson sample sits almost on the
singularity, while at `a = 0` the 2 mm grid misses the integrand's peak). -/
theorem C7_counterexample :
    Simulator.calculateDiskViewFactor 0 (1 / 100) 200
      < Simulator.calculateDiskViewFactor 100 (1 / 100) 200 := by
  have hub := viewFactor_center_small_ub
  have hlb := viewFactor_edge_lower_bound (1 / 100) (by norm_num)
  have h1 : (1:ℝ) < 8 / (9 * (1 / 100) ^ 2) := by norm_num
  linarith

/-- C7 amended: for fixed `H > 0`, `D > 0`, the parallel-disk view factor is
monotonically non-increasing in the lateral offset on the region outside the
source's footprint: for `D/2 ≤ a1 ≤ a2`,
`calculateDiskViewFactor a2 H D ≤ calculateDiskViewFactor a1 H D` (inside
the footprint the quadrature is not monotone, as the counterexample shows). -/
theorem C7_amended_monotone_outside (L D a1 a2 : ℝ) (hL : 0 < L) (hD : 0 < D)
    (h1 : D / 2 ≤ a1) (h12 : a1 ≤ a2) :
    Simulator.calculateDiskViewFactor a2 L D ≤ Simulator.calculateDiskViewFactor a1 L D := by
  simp only [Simulator.calculateDiskViewFactor]
  rw [if_neg (by linarith), if_neg (by linarith)]
  apply mul_le_mul_of_nonneg_left _ (div_nonneg (mul_self_nonneg L) Real.pi_pos.le)
  simp only [Simulator.simpson2D]
  have hpi := Real.pi_pos
  apply mul_le_mul_of_nonneg_left _ (by nlinarith [hpi] :
    (0:ℝ) ≤ (D / 2 - 0) / 50 * ((2 * Real.pi - 0) / 50) / 9)
  apply Finset.sum_le_sum
  intro i hi
  apply Finset.sum_le_sum
  intro j _
  apply mul_le_mul_of_nonneg_left _
    (mul_nonneg (Simulator.simpsonWeight_nonneg _ _) (Simulator.simpsonWeight_nonneg _ _))
  have hi50 : (i:ℝ) ≤ 50 := by
    have := Finset.mem_range.mp hi
    exact_mod_cast Nat.lt_succ_iff.mp this
  have hstep : (0:ℝ) ≤ (D / 2 - 0) / 50 := by linarith
  have hicast : (0:ℝ) ≤ (i:ℝ) := Nat.cast_nonneg i
  apply diskIntegrand_anti
  · nlinarith
  · have : (0:ℝ) + i * ((D / 2 - 0) / 50) ≤ D / 2 := by
      have := mul_le_mul_of_nonneg_right hi50 hstep
      nlinarith
    linarith
  · exact h12
  · exact ne_of_gt hL

/-- Witness for C7 (amended) at a concrete input: `H = 100`, `D = 200`,
offsets `100 ≤ 150`, both outside the 100 mm source radius. -/
theorem C7_witness :
    Simulator.calculateDiskViewFactor 150 100 200
      ≤ Simulator.calculateDiskViewFactor 100 100 200 :=
  C7_amended_monotone_outside 100 200 100 150 (by norm_num) (by norm_num)
    (by norm_num) (by norm_num)

/-- Witness for C10 at a concrete input. -/
theorem C10_witness :
    (Simulator.applyPerSegmentScaling [(1:ℝ), 2] [5, 3]).length = [(1:ℝ), 2].length ∧
    (∀ x ∈ Simulator.applyPerSegmentScaling [(1:ℝ), 2] [5, 3],
      Simulator.jsMin [(5:ℝ), 3] ≤ x ∧ x ≤ Simulator.jsMax [(5:ℝ), 3]) ∧
    (Simulator.jsMax [(1:ℝ), 2] = Simulator.jsMin [(1:ℝ), 2] →
      Simulator.applyPerSegmentScaling [(1:ℝ), 2] [5, 3]
        = List.replicate [(1:ℝ), 2].length (Simulator.jsMin [(5:ℝ), 3])) :=
  C10_per_segment_scaling [1, 2] [5, 3] (by simp) (by simp)

end SolarTrack
